import Mathlib

/-!
Verification of the HabitTrack repository's date utilities, to-do text codec,
and API handlers, shallowly embedded in Lean.

Conventions of the embedding:
* A JavaScript `Date` is the instant it denotes: milliseconds since the Unix
  epoch, as an `Int`.
* The runtime's timezone is a fixed offset `off` in minutes; the local
  components of an instant `t` are the UTC components of `t + off * 60000`
  (`Date.prototype.getFullYear` et al. under a constant-offset zone).
* Calendar conversion between day numbers and proleptic-Gregorian civil
  dates follows the ECMAScript date arithmetic; months are 0-based as in
  JavaScript (`getMonth`, `Date.UTC`).
* `Int` division `/` and `%` are used throughout: for a positive divisor
  they are floor division, which is what ECMAScript specifies.
-/

namespace HabitTrack

/-- A civil calendar date; `month` is 0-based (January = 0) as in JavaScript. -/
structure Ymd where
  year : Int
  month : Int
  day : Int
deriving DecidableEq, Repr

/-- Days-since-epoch decomposed into a 400-year-era count. -/
def eraOf (z : Int) : Int := (z + 719468) / 146097

/-- Day-of-era, in `[0, 146096]`. -/
def doeOf (z : Int) : Int := (z + 719468) % 146097

/-- Year-of-era computed from a day-of-era. -/
def yoeOfDoe (doe : Int) : Int :=
  (doe - doe / 1460 + doe / 36524 - doe / 146096) / 365

/-- Day-of-year (March-based) computed from a day-of-era. -/
def doyOfDoe (doe : Int) : Int :=
  doe - (365 * yoeOfDoe doe + (yoeOfDoe doe) / 4 - (yoeOfDoe doe) / 100)

/-- March-based month index in `[0, 11]` from a March-based day-of-year. -/
def mpOfDoy (doy : Int) : Int := (5 * doy + 2) / 153

/-- Civil date of a day number (days since 1970-01-01), proleptic Gregorian.
This is the calendar decomposition ECMAScript's `YearFromTime`,
`MonthFromTime` and `DateFromTime` perform. -/
def civilFromDays (z : Int) : Ymd :=
  let doe := doeOf z
  let yoe := yoeOfDoe doe
  let doy := doyOfDoe doe
  let mp := mpOfDoy doy
  let d := doy - (153 * mp + 2) / 5 + 1
  let m1 := if mp < 10 then mp + 3 else mp - 9
  ⟨yoe + eraOf z * 400 + (if m1 ≤ 2 then 1 else 0), m1 - 1, d⟩

/-- Day number of a civil date (ECMAScript `MakeDay` for an in-range month;
the day component may be out of range and extends linearly, as in `MakeDay`). -/
def daysFromCivil (c : Ymd) : Int :=
  let m1 := c.month + 1
  let y := c.year - (if m1 ≤ 2 then 1 else 0)
  let era := y / 400
  let yoe := y - era * 400
  let doy := (153 * (m1 + (if 2 < m1 then -3 else 9)) + 2) / 5 + c.day - 1
  let doe := yoe * 365 + yoe / 4 - yoe / 100 + doy
  era * 146097 + doe - 719468

theorem doeOf_bounds (z : Int) : 0 ≤ doeOf z ∧ doeOf z ≤ 146096 := by
  unfold doeOf; omega

theorem era_doe_decomp (z : Int) : eraOf z * 146097 + doeOf z = z + 719468 := by
  unfold eraOf doeOf; omega

set_option maxHeartbeats 4000000 in
theorem core_bounds (doe e f g P b c d : Int)
    (hdoe0 : 0 ≤ doe) (hdoe1 : doe ≤ 146096)
    (he : 1460 * e ≤ doe ∧ doe < 1460 * (e + 1))
    (hf : 36524 * f ≤ doe ∧ doe < 36524 * (f + 1))
    (hg : 146096 * g ≤ doe ∧ doe < 146096 * (g + 1))
    (hP : P = doe - e + f - g)
    (hb : 365 * b ≤ P ∧ P < 365 * (b + 1))
    (hc : 4 * c ≤ b ∧ b < 4 * (c + 1))
    (hd : 100 * d ≤ b ∧ b < 100 * (d + 1)) :
    365 * b + c - d ≤ doe ∧ doe - (365 * b + c - d) ≤ 365 := by
  have he0 : 0 ≤ e := by omega
  have he1 : e ≤ 100 := by omega
  have hf0 : 0 ≤ f := by omega
  have hf1 : f ≤ 4 := by omega
  interval_cases e <;> first
  | omega
  | (interval_cases f <;> omega)

theorem yoe_doy_bounds (doe : Int) (h0 : 0 ≤ doe) (h1 : doe ≤ 146096) :
    0 ≤ yoeOfDoe doe ∧ yoeOfDoe doe ≤ 399 ∧
    0 ≤ doyOfDoe doe ∧ doyOfDoe doe ≤ 365 := by
  have h365 : 365 * yoeOfDoe doe ≤ doe - doe / 1460 + doe / 36524 - doe / 146096 ∧
      doe - doe / 1460 + doe / 36524 - doe / 146096 < 365 * (yoeOfDoe doe + 1) := by
    unfold yoeOfDoe; omega
  have hcb := core_bounds doe (doe / 1460) (doe / 36524) (doe / 146096)
    (doe - doe / 1460 + doe / 36524 - doe / 146096)
    (yoeOfDoe doe) (yoeOfDoe doe / 4) (yoeOfDoe doe / 100)
    h0 h1 (by omega) (by omega) (by omega) rfl h365 (by omega) (by omega)
  have hyoe : 0 ≤ yoeOfDoe doe ∧ yoeOfDoe doe ≤ 399 := by unfold yoeOfDoe; omega
  have hdoy : doyOfDoe doe =
      doe - (365 * yoeOfDoe doe + yoeOfDoe doe / 4 - yoeOfDoe doe / 100) := rfl
  omega

theorem mp_bounds (doy : Int) (h0 : 0 ≤ doy) (h1 : doy ≤ 365) :
    0 ≤ mpOfDoy doy ∧ mpOfDoy doy ≤ 11 := by
  unfold mpOfDoy; omega

theorem daysFromCivil_comp (era yoe mp doy : Int)
    (hyoe0 : 0 ≤ yoe) (hyoe1 : yoe ≤ 399)
    (hmp0 : 0 ≤ mp) (hmp1 : mp ≤ 11) :
    daysFromCivil ⟨yoe + era * 400 + (if (if mp < 10 then mp + 3 else mp - 9) ≤ 2 then 1 else 0),
                   (if mp < 10 then mp + 3 else mp - 9) - 1,
                   doy - (153 * mp + 2) / 5 + 1⟩
      = era * 146097 + (365 * yoe + yoe / 4 - yoe / 100 + doy) - 719468 := by
  have hdiv400 : (yoe + era * 400) / 400 = era := by omega
  simp only [daysFromCivil]
  split_ifs <;> omega

/-- The calendar decomposition is a section of `daysFromCivil`: re-encoding
the components of any day number gives back that day number. -/
theorem daysFromCivil_civilFromDays (z : Int) : daysFromCivil (civilFromDays z) = z := by
  have hdoe := doeOf_bounds z
  have hed := era_doe_decomp z
  have hyd := yoe_doy_bounds (doeOf z) hdoe.1 hdoe.2
  have hmp := mp_bounds (doyOfDoe (doeOf z)) hyd.2.2.1 hyd.2.2.2
  have hcomp := daysFromCivil_comp (eraOf z) (yoeOfDoe (doeOf z))
    (mpOfDoy (doyOfDoe (doeOf z))) (doyOfDoe (doeOf z)) hyd.1 hyd.2.1 hmp.1 hmp.2
  have hdoy : doyOfDoe (doeOf z) = doeOf z -
      (365 * yoeOfDoe (doeOf z) + yoeOfDoe (doeOf z) / 4 - yoeOfDoe (doeOf z) / 100) := rfl
  have hcf : civilFromDays z =
      ⟨yoeOfDoe (doeOf z) + eraOf z * 400 +
         (if (if mpOfDoy (doyOfDoe (doeOf z)) < 10 then mpOfDoy (doyOfDoe (doeOf z)) + 3
              else mpOfDoy (doyOfDoe (doeOf z)) - 9) ≤ 2 then 1 else 0),
       (if mpOfDoy (doyOfDoe (doeOf z)) < 10 then mpOfDoy (doyOfDoe (doeOf z)) + 3
        else mpOfDoy (doyOfDoe (doeOf z)) - 9) - 1,
       doyOfDoe (doeOf z) - (153 * mpOfDoy (doyOfDoe (doeOf z)) + 2) / 5 + 1⟩ := rfl
  rw [hcf, hcomp]
  omega

/-- The month produced by `civilFromDays` is a valid JavaScript month index. -/
theorem civilFromDays_month_bounds (z : Int) :
    0 ≤ (civilFromDays z).month ∧ (civilFromDays z).month ≤ 11 := by
  have hdoe := doeOf_bounds z
  have hyd := yoe_doy_bounds (doeOf z) hdoe.1 hdoe.2
  have hmp := mp_bounds (doyOfDoe (doeOf z)) hyd.2.2.1 hyd.2.2.2
  simp only [civilFromDays]
  split_ifs <;> omega

/-! ### JavaScript `Date` semantics used by `src/lib/date-utils.ts` -/

/-- ECMAScript `Day(t)`: the day number containing instant `t` (ms). -/
def dayNumber (t : Int) : Int := t / 86400000

/-- The local calendar components of instant `t` under a fixed timezone offset
of `off` minutes (`getFullYear` / `getMonth` / `getDate`). -/
def localCivil (t off : Int) : Ymd := civilFromDays (dayNumber (t + off * 60000))

/-- The UTC calendar components of instant `t`
(`getUTCFullYear` / `getUTCMonth` / `getUTCDate`). -/
def utcCivil (t : Int) : Ymd := civilFromDays (dayNumber t)

/-- ECMAScript `MakeFullYear`: `Date.UTC` maps a year argument in `[0, 99]`
to `1900 + year`. -/
def makeFullYear (y : Int) : Int := if 0 ≤ y ∧ y ≤ 99 then 1900 + y else y

/-- `Date.UTC(y, m, d, hour, 0, 0)` as an instant: `MakeFullYear` on the year,
month overflow folded into the year as in `MakeDay`, day and hour linear. -/
def dateUTC (y m d hour : Int) : Int :=
  daysFromCivil ⟨makeFullYear y + m / 12, m % 12, d⟩ * 86400000 + hour * 3600000

/-- `formatDateForStorage` (src/lib/date-utils.ts): reads the local calendar
components of the argument and builds the noon-UTC instant from them.  The
source returns `new Date(Date.UTC(year, month, day, 12, 0, 0)).toISOString()`;
the embedding returns the instant that ISO string denotes. -/
def formatDateForStorage (t off : Int) : Int :=
  dateUTC (localCivil t off).year (localCivil t off).month (localCivil t off).day 12

/-- Reading the calendar date back out of a stored value (spec §8
`decodeCalendarDate`): the UTC calendar components of the instant. -/
def decodeCalendarDate (t : Int) : Ymd := utcCivil t

/-- A task-completion record as seen by `isTaskCompletedOnDate`:
the stored instant and the completion flag. -/
structure Completion where
  date : Int
  completed : Bool
deriving DecidableEq, Repr

/-- `isTaskCompletedOnDate` (src/lib/date-utils.ts): compares each completion's
UTC calendar components against the target's local components and requires the
flag. -/
def isTaskCompletedOnDate (completions : List Completion) (target off : Int) : Bool :=
  let targetYear := (localCivil target off).year
  let targetMonth := (localCivil target off).month
  let targetDay := (localCivil target off).day
  completions.any (fun c =>
    decide ((utcCivil c.date).year = targetYear) &&
    decide ((utcCivil c.date).month = targetMonth) &&
    decide ((utcCivil c.date).day = targetDay) &&
    c.completed)

/-- Month labels produced by date-fns `format(date, 'MMM')`. -/
def monthNames : List String :=
  ["Jan", "Feb", "Mar", "Apr", "May", "Jun", "Jul", "Aug", "Sep", "Oct", "Nov", "Dec"]

/-- Weekday labels produced by date-fns `format(date, 'EEE')`. -/
def dayNames : List String :=
  ["Sun", "Mon", "Tue", "Wed", "Thu", "Fri", "Sat"]

/-- One column of the habit grid (the `DateColumn` interface).  `date` is the
local day number the column stands for. -/
structure DateColumn where
  date : Int
  dayName : String
  dayNumber : Int
  monthName : String
  isToday : Bool
deriving DecidableEq, Repr

/-- The annotations `generateDateColumns` attaches to a day `d`
(day-of-week label, day number, month label, `isToday` against `today`). -/
def mkDateColumn (d today : Int) : DateColumn :=
  { date := d
  , dayName := dayNames.getD ((d + 4) % 7).toNat ""
  , dayNumber := (civilFromDays d).day
  , monthName := monthNames.getD (civilFromDays d).month.toNat ""
  , isToday := d == today }

/-- date-fns `eachDayOfInterval` at day granularity: the ascending list of
days from `s` to `e` inclusive (empty when the interval is inverted; date-fns
raises a `RangeError` there, a case the theorems below exclude). -/
def intervalDays (s e : Int) : List Int :=
  (List.range (e - s + 1).toNat).map (fun i : Nat => s + (i : Int))

/-- `generateDateColumns` (src/lib/date-utils.ts): `halfDays = ⌊daysToShow/2⌋`,
columns for the days from `centerDay - halfDays` to `centerDay + halfDays - 1`. -/
def generateDateColumns (centerDay daysToShow today : Int) : List DateColumn :=
  let halfDays := daysToShow / 2
  let startDate := centerDay - halfDays
  let endDate := centerDay + halfDays - 1
  (intervalDays startDate endDate).map (fun d => mkDateColumn d today)

theorem localCivil_month_bounds (t off : Int) :
    0 ≤ (localCivil t off).month ∧ (localCivil t off).month ≤ 11 :=
  civilFromDays_month_bounds (dayNumber (t + off * 60000))

/-- C1 (amended): for every instant `t` and timezone offset `off`, provided the
local calendar year of `t` is not in `[0, 99]` (where `Date.UTC` remaps the
year to `1900 + y`), the stored value is fixed at 12:00:00 UTC and its UTC
calendar components equal the local calendar components of `t`; hence decoding
the stored value's calendar date recovers the local calendar date of `t`
regardless of the runtime's timezone offset. -/
theorem formatDateForStorage_spec (t off : Int)
    (hy : (localCivil t off).year < 0 ∨ 99 < (localCivil t off).year) :
    decodeCalendarDate (formatDateForStorage t off) = localCivil t off ∧
    formatDateForStorage t off % 86400000 = 43200000 := by
  have hm := localCivil_month_bounds t off
  have hmfy : makeFullYear (localCivil t off).year = (localCivil t off).year := by
    unfold makeFullYear
    split_ifs with h
    · omega
    · rfl
  have hdiv0 : (localCivil t off).month / 12 = 0 := by omega
  have hmod : (localCivil t off).month % 12 = (localCivil t off).month := by omega
  have key : formatDateForStorage t off =
      dayNumber (t + off * 60000) * 86400000 + 43200000 := by
    unfold formatDateForStorage dateUTC
    rw [hmfy, hdiv0, hmod, add_zero]
    have heta : (⟨(localCivil t off).year, (localCivil t off).month,
        (localCivil t off).day⟩ : Ymd) = localCivil t off := rfl
    rw [heta]
    have hsec : daysFromCivil (localCivil t off) = dayNumber (t + off * 60000) :=
      daysFromCivil_civilFromDays (dayNumber (t + off * 60000))
    rw [hsec]
    norm_num
  constructor
  · rw [key]
    unfold decodeCalendarDate utcCivil localCivil
    have harith : dayNumber (dayNumber (t + off * 60000) * 86400000 + 43200000) =
        dayNumber (t + off * 60000) := by
      unfold dayNumber; omega
    rw [harith]
  · rw [key]; omega

/-- C1 witness instance: today's date at the UTC-12 and UTC+14 boundary
offsets round-trips to the same calendar date. -/
theorem formatDateForStorage_spec_witness :
    ((localCivil 1791720000000 (-720)).year < 0 ∨ 99 < (localCivil 1791720000000 (-720)).year) ∧
    decodeCalendarDate (formatDateForStorage 1791720000000 (-720)) = localCivil 1791720000000 (-720) ∧
    formatDateForStorage 1791720000000 (-720) % 86400000 = 43200000 :=
  ⟨by decide, formatDateForStorage_spec 1791720000000 (-720) (by decide)⟩

/-- C1 counterexample: the instant whose local (offset 0) calendar date is
0050-01-01 is stored by `formatDateForStorage` with UTC year 1950, not 50:
`Date.UTC` treats two-digit years as 1900-relative, so the claimed property
fails for every date with local year in `[0, 99]`. -/
theorem formatDateForStorage_year50 :
    (localCivil (-60589296000000) 0).year = 50 ∧
    (decodeCalendarDate (formatDateForStorage (-60589296000000) 0)).year = 1950 ∧
    (decodeCalendarDate (formatDateForStorage (-60589296000000) 0)).year ≠
      (localCivil (-60589296000000) 0).year := by
  decide

/-- C5: `isTaskCompletedOnDate` returns `true` exactly when some completion's
stored date has UTC calendar components equal to the target's local calendar
components and that completion's flag is set; raw instant equality is never
required. -/
theorem isTaskCompletedOnDate_iff (completions : List Completion) (target off : Int) :
    isTaskCompletedOnDate completions target off = true ↔
    ∃ c ∈ completions,
      (utcCivil c.date).year = (localCivil target off).year ∧
      (utcCivil c.date).month = (localCivil target off).month ∧
      (utcCivil c.date).day = (localCivil target off).day ∧
      c.completed = true := by
  simp [isTaskCompletedOnDate, List.any_eq_true, and_assoc]

/-- C3 (amended): for `daysToShow ≥ 2` the grid has `2 * ⌊daysToShow/2⌋`
columns (one fewer than `daysToShow` when it is odd): consecutive days starting
`⌊daysToShow/2⌋` days before the center, with the center date at index
`⌊daysToShow/2⌋`, each annotated per `mkDateColumn`. -/
theorem generateDateColumns_spec (c today n : Int) (hn : 2 ≤ n) :
    (generateDateColumns c n today).length = (2 * (n / 2)).toNat ∧
    (∀ i : Nat, i < (2 * (n / 2)).toNat →
      ((generateDateColumns c n today).map DateColumn.date)[i]? = some (c - n / 2 + i)) ∧
    ((generateDateColumns c n today).map DateColumn.date)[(n / 2).toNat]? = some c ∧
    (∀ col ∈ generateDateColumns c n today, col = mkDateColumn col.date today) := by
  have hh : 1 ≤ n / 2 := by omega
  have hlen : (c + n / 2 - 1 - (c - n / 2) + 1).toNat = (2 * (n / 2)).toNat := by omega
  refine ⟨?_, ?_, ?_, ?_⟩
  · simp only [generateDateColumns, intervalDays, List.length_map, List.length_range, hlen]
  · intro i hi
    simp only [generateDateColumns, intervalDays, hlen, List.map_map, List.getElem?_map,
      List.getElem?_range, hi, if_pos, Option.map_some]
    rfl
  · have hi : (n / 2).toNat < (2 * (n / 2)).toNat := by omega
    simp only [generateDateColumns, intervalDays, hlen, List.map_map, List.getElem?_map,
      List.getElem?_range, hi, if_pos, Option.map_some]
    show some (c - n / 2 + ((n / 2 : Int)).toNat) = some c
    simp only [Option.some.injEq]
    omega
  · intro col hcol
    simp only [generateDateColumns, intervalDays, List.mem_map] at hcol
    obtain ⟨d, _, rfl⟩ := hcol
    rfl

/-- C3 witness instance: at `daysToShow = 14` the grid has 14 columns. -/
theorem generateDateColumns_spec_witness :
    (2 : Int) ≤ 14 ∧ (generateDateColumns 0 14 0).length = (2 * ((14 : Int) / 2)).toNat :=
  ⟨by decide, (generateDateColumns_spec 0 0 14 (by decide)).1⟩

/-- C3 counterexample: with `daysToShow = 7` (a value the UI offers) the grid
has 6 columns, not 7: the interval runs from `center - 3` to `center + 2`. -/
theorem generateDateColumns_seven :
    (generateDateColumns 0 7 0).length = 6 ∧ (generateDateColumns 0 7 0).length ≠ 7 := by
  decide

/-! ### The daily-note to-do codec (src/components/notes/daily-notes.tsx)

Strings are embedded as `List Char`; `splitOnNl`/`joinNl` model
`String.prototype.split('\n')` and `Array.prototype.join('\n')`. -/

/-- JavaScript whitespace: the characters matched by `\s` and trimmed by
`String.prototype.trim`. -/
def isJsWs (c : Char) : Bool :=
  c == ' ' || c == '\t' || c == '\n' || c == '\r' || c == '\u000B' || c == '\u000C' ||
  c == '\u00A0' || c == '\u1680' || c == '\u2000' || c == '\u2001' || c == '\u2002' ||
  c == '\u2003' || c == '\u2004' || c == '\u2005' || c == '\u2006' || c == '\u2007' ||
  c == '\u2008' || c == '\u2009' || c == '\u200A' || c == '\u2028' || c == '\u2029' ||
  c == '\u202F' || c == '\u205F' || c == '\u3000' || c == '\uFEFF'

/-- `content.split('\n')`. -/
def splitOnNl : List Char → List (List Char)
  | [] => [[]]
  | c :: rest =>
    if c = '\n' then [] :: splitOnNl rest
    else
      match splitOnNl rest with
      | [] => [[c]]
      | l :: ls => (c :: l) :: ls

/-- `lines.join('\n')`. -/
def joinNl : List (List Char) → List Char
  | [] => []
  | [l] => l
  | l :: l2 :: ls => l ++ '\n' :: joinNl (l2 :: ls)

/-- `String.prototype.trim()`. -/
def jsTrim (l : List Char) : List Char :=
  ((l.dropWhile isJsWs).reverse.dropWhile isJsWs).reverse

/-- A to-do item of the daily note (the `TodoItem` interface, without the
client-side `id` the parser regenerates on every parse). -/
structure TodoItem where
  text : List Char
  completed : Bool
  reminderTime : Option (List Char)
deriving DecidableEq, Repr

/-- The ` @remind:HH:mm` suffix appended to the first line when a reminder is
attached. -/
def remTag : Option (List Char) -> List Char
  | none => []
  | some r => ' ' :: '@' :: 'r' :: 'e' :: 'm' :: 'i' :: 'n' :: 'd' :: ':' :: r

/-- One serialized item: checkbox marker, first text line with optional
` @remind:HH:mm` suffix, then each further text line indented by two spaces. -/
def serializeItem (it : TodoItem) : List Char :=
  let lines := splitOnNl it.text
  let checkbox : List Char := ['[', if it.completed then 'x' else ' ', ']', ' ']
  checkbox ++ lines.headI ++ remTag it.reminderTime ++
    (lines.tail.map (fun l => '\n' :: ' ' :: ' ' :: l)).flatten

/-- `serializeItems` from daily-notes.tsx. -/
def serializeItems (items : List TodoItem) : List Char :=
  joinNl (items.map serializeItem)

/-- A JavaScript LineTerminator: the characters `.` does not match. -/
def isLineTerminator (c : Char) : Bool :=
  c == '\n' || c == '\r' || c == '\u2028' || c == '\u2029'

/-- The regex `^\[([ x])\]\s*(.*)$` (no `m` flag, so `$` is end of input and
`.` excludes line terminators): returns the completion marker and the capture
group.  Greedy `\s*` consumes the maximal whitespace run; since backtracking
only moves whitespace characters from `\s*` into `(.*)`, the match succeeds
exactly when the remainder after that run is free of line terminators, and
the capture is that remainder. -/
def matchChecklist (l : List Char) : Option (Bool × List Char) :=
  match l with
  | '[' :: c :: ']' :: rest =>
    if (c == ' ' || c == 'x') &&
        (rest.dropWhile isJsWs).all (fun ch => !isLineTerminator ch) then
      some (c == 'x', rest.dropWhile isJsWs)
    else none
  | _ => none

/-- The suffix match `/\s*@remind:(\d{2}:\d{2})$/`: when the text ends with
`@remind:` and four digits around a colon, returns the captured `HH:mm`
together with the text with the match (including the maximal run of
whitespace before `@`) removed. -/
def remSuffix? (t : List Char) : Option (List Char × List Char) :=
  match t.reverse with
  | m2 :: m1 :: ':' :: h2 :: h1 :: ':' :: 'd' :: 'n' :: 'i' :: 'm' :: 'e' :: 'r' :: '@' :: rest =>
    if m2.isDigit && m1.isDigit && h2.isDigit && h1.isDigit then
      some ([h1, h2, ':', m1, m2], (rest.dropWhile isJsWs).reverse)
    else none
  | _ => none

/-- Reminder extraction applied to a checklist line's capture: the matched
reminder (if any) and the text with the suffix stripped. -/
def extractReminder (t : List Char) : Option (List Char) × List Char :=
  match remSuffix? t with
  | some (r, stripped) => (some r, stripped)
  | none => (none, t)

/-- The line loop of `parseContent`: a checklist line flushes the current item
and starts a new one, a two-space-indented line continues the current item, a
blank line inside an item contributes a newline, and any other non-blank line
starts a new unchecked item. -/
def parseLoop : List (List Char) → Option TodoItem → List TodoItem
  | [], cur => cur.toList
  | l :: ls, cur =>
    match matchChecklist l with
    | some p =>
      cur.toList ++ parseLoop ls (some ⟨(extractReminder p.2).2, p.1, (extractReminder p.2).1⟩)
    | none =>
      match cur with
      | some item =>
        if l.take 2 = [' ', ' '] then
          parseLoop ls (some ⟨item.text ++ '\n' :: l.drop 2, item.completed, item.reminderTime⟩)
        else if jsTrim l = [] then
          parseLoop ls (some ⟨item.text ++ ['\n'], item.completed, item.reminderTime⟩)
        else
          item :: parseLoop ls (some ⟨l, false, none⟩)
      | none =>
        if jsTrim l = [] then
          parseLoop ls none
        else
          parseLoop ls (some ⟨l, false, none⟩)

/-- `parseContent` from daily-notes.tsx. -/
def parseContent (content : List Char) : List TodoItem :=
  if jsTrim content = [] then [] else parseLoop (splitOnNl content) none

/-- A stored reminder in the `HH:mm` shape the serializer writes and the
parser's capture group recognizes. -/
def isRemFormat : List Char → Bool
  | [h1, h2, c, m1, m2] => h1.isDigit && h2.isDigit && (c == ':') && m1.isDigit && m2.isDigit
  | _ => false

/-- Round-trip well-formedness of one item: the first text line does not
start with whitespace (the checklist regex's `\s*` would eat it), contains no
carriage return or Unicode line separator (the regex's `(.*)$` cannot match
line terminators, so the checklist line would fail to match at all), and —
when no reminder is attached — does not end in an `@remind:HH:mm` suffix; an
attached reminder is in `HH:mm` shape and the first line does not end in
whitespace (the reminder regex's `\s*` would eat it). -/
def headNotWs (l : List Char) : Bool :=
  match l.head? with | some c => !isJsWs c | none => true

def lastNotWs (l : List Char) : Bool :=
  match l.getLast? with | some c => !isJsWs c | none => true

def wfTodo (it : TodoItem) : Bool :=
  headNotWs (splitOnNl it.text).headI &&
  (splitOnNl it.text).headI.all (fun c => !isLineTerminator c) &&
  (match it.reminderTime with
   | none => (remSuffix? (splitOnNl it.text).headI).isNone
   | some r => isRemFormat r && lastNotWs (splitOnNl it.text).headI)

/-- The claim's own precondition: no line of the item's text begins with two
spaces (the continuation-marker collision). -/
def noIndentedLine (it : TodoItem) : Bool :=
  (splitOnNl it.text).all (fun l => !decide (l.take 2 = [' ', ' ']))



theorem splitOnNl_ne_nil (s : List Char) : splitOnNl s ≠ [] := by
  induction s with
  | nil => simp [splitOnNl]
  | cons c rest ih =>
    simp only [splitOnNl]
    split_ifs
    · simp
    · cases h : splitOnNl rest with
      | nil => simp
      | cons l ls => simp [h]

theorem splitOnNl_cons_nl (rest : List Char) :
    splitOnNl ('\n' :: rest) = [] :: splitOnNl rest := by
  simp [splitOnNl]

theorem splitOnNl_cons_of_ne (c : Char) (rest : List Char) (h : c ≠ '\n') :
    splitOnNl (c :: rest) = (c :: (splitOnNl rest).headI) :: (splitOnNl rest).tail := by
  simp only [splitOnNl, if_neg h]
  cases hs : splitOnNl rest with
  | nil => exact absurd hs (splitOnNl_ne_nil rest)
  | cons l ls => simp

theorem splitOnNl_append_nl (a b : List Char) :
    splitOnNl (a ++ '\n' :: b) = splitOnNl a ++ splitOnNl b := by
  induction a with
  | nil => simp [splitOnNl]
  | cons c a ih =>
    by_cases h : c = '\n'
    · subst h
      simp only [List.cons_append, splitOnNl_cons_nl, ih]
    · simp only [List.cons_append, splitOnNl_cons_of_ne c _ h, ih]
      cases hs : splitOnNl a with
      | nil => exact absurd hs (splitOnNl_ne_nil a)
      | cons l ls => simp [hs]

theorem splitOnNl_no_nl (s : List Char) (h : '\n' ∉ s) : splitOnNl s = [s] := by
  induction s with
  | nil => rfl
  | cons c rest ih =>
    have hc : c ≠ '\n' := fun e => h (e ▸ List.mem_cons_self c rest)
    rw [splitOnNl_cons_of_ne c rest hc, ih (fun hm => h (List.mem_cons_of_mem c hm))]
    simp

theorem noNl_of_mem_splitOnNl (s l : List Char) (hl : l ∈ splitOnNl s) : '\n' ∉ l := by
  induction s generalizing l with
  | nil =>
    simp only [splitOnNl, List.mem_singleton] at hl
    subst hl; simp
  | cons c rest ih =>
    by_cases h : c = '\n'
    · subst h
      rw [splitOnNl_cons_nl] at hl
      rcases List.mem_cons.mp hl with h1 | h1
      · subst h1; simp
      · exact ih l h1
    · rw [splitOnNl_cons_of_ne c rest h] at hl
      rcases List.mem_cons.mp hl with h1 | h1
      · subst h1
        intro hm
        rcases List.mem_cons.mp hm with h2 | h2
        · exact h h2.symm
        · cases hs : splitOnNl rest with
          | nil => exact absurd hs (splitOnNl_ne_nil rest)
          | cons l0 ls =>
            have : l0 ∈ splitOnNl rest := by rw [hs]; exact List.mem_cons_self l0 ls
            exact ih l0 this (by rw [hs] at h2; simpa using h2)
      · cases hs : splitOnNl rest with
        | nil => exact absurd hs (splitOnNl_ne_nil rest)
        | cons l0 ls =>
          rw [hs] at h1
          exact ih l (by rw [hs]; exact List.mem_cons_of_mem l0 h1)

theorem joinNl_cons (l : List Char) (ls : List (List Char)) (h : ls ≠ []) :
    joinNl (l :: ls) = l ++ '\n' :: joinNl ls := by
  cases ls with
  | nil => exact absurd rfl h
  | cons l2 ls2 => rfl

theorem joinNl_splitOnNl (s : List Char) : joinNl (splitOnNl s) = s := by
  induction s with
  | nil => rfl
  | cons c rest ih =>
    by_cases h : c = '\n'
    · subst h
      rw [splitOnNl_cons_nl, joinNl_cons _ _ (splitOnNl_ne_nil rest), ih]
      simp
    · rw [splitOnNl_cons_of_ne c rest h]
      cases hs : splitOnNl rest with
      | nil => exact absurd hs (splitOnNl_ne_nil rest)
      | cons l ls =>
        rw [hs] at ih
        cases ls with
        | nil =>
          simpa [joinNl] using congrArg (c :: ·) ih
        | cons l2 ls2 =>
          rw [joinNl_cons _ _ (by simp)] at ih ⊢
          simp only [List.headI, List.tail]
          rw [List.cons_append, ih]


theorem headI_mem_splitOnNl (s : List Char) : (splitOnNl s).headI ∈ splitOnNl s := by
  cases hs : splitOnNl s with
  | nil => exact absurd hs (splitOnNl_ne_nil s)
  | cons l ls => simp

theorem noNl_headI (s : List Char) : '\n' ∉ (splitOnNl s).headI :=
  noNl_of_mem_splitOnNl s _ (headI_mem_splitOnNl s)

theorem noNl_of_mem_tail (s l : List Char) (hl : l ∈ (splitOnNl s).tail) : '\n' ∉ l :=
  noNl_of_mem_splitOnNl s l (List.mem_of_mem_tail hl)

theorem splitOnNl_indentBlock (a : List Char) (ls : List (List Char))
    (ha : '\n' ∉ a) (hls : ∀ l ∈ ls, '\n' ∉ l) :
    splitOnNl (a ++ (ls.map (fun l => '\n' :: ' ' :: ' ' :: l)).flatten)
      = a :: ls.map (fun l => ' ' :: ' ' :: l) := by
  induction ls generalizing a with
  | nil => simpa using splitOnNl_no_nl a ha
  | cons l ls ih =>
    have hstep : a ++ ((l :: ls).map (fun l => '\n' :: ' ' :: ' ' :: l)).flatten
        = a ++ '\n' :: ((' ' :: ' ' :: l) ++ (ls.map (fun l => '\n' :: ' ' :: ' ' :: l)).flatten) := by
      simp
    rw [hstep, splitOnNl_append_nl, splitOnNl_no_nl a ha]
    have hno : '\n' ∉ (' ' :: ' ' :: l : List Char) := by
      intro hm
      rcases List.mem_cons.mp hm with h1 | h1
      · exact absurd h1.symm (by decide)
      rcases List.mem_cons.mp h1 with h2 | h2
      · exact absurd h2.symm (by decide)
      · exact hls l (List.mem_cons_self l ls) h2
    rw [ih (' ' :: ' ' :: l) hno (fun x hx => hls x (List.mem_cons_of_mem l hx))]
    simp

theorem matchChecklist_checkbox (done : Bool) (rest : List Char)
    (hterm : (rest.dropWhile isJsWs).all (fun ch => !isLineTerminator ch) = true) :
    matchChecklist ('[' :: (if done then 'x' else ' ') :: ']' :: ' ' :: rest)
      = some (done, rest.dropWhile isJsWs) := by
  have hdw : (' ' :: rest).dropWhile isJsWs = rest.dropWhile isJsWs := by
    simp [List.dropWhile, show isJsWs ' ' = true from by decide]
  cases done <;> simp [matchChecklist, hdw, hterm]

theorem noTerm_of_digit (c : Char) (h : c.isDigit = true) : isLineTerminator c = false := by
  unfold isLineTerminator
  by_cases h1 : c = '\n'
  · subst h1; exact absurd h (by decide)
  by_cases h2 : c = '\r'
  · subst h2; exact absurd h (by decide)
  by_cases h3 : c = '\u2028'
  · subst h3; exact absurd h (by decide)
  by_cases h4 : c = '\u2029'
  · subst h4; exact absurd h (by decide)
  simp [h1, h2, h3, h4]

theorem all_dropWhile_of_all (p q : Char → Bool) (l : List Char) (h : l.all q = true) :
    (l.dropWhile p).all q = true := by
  induction l with
  | nil => simp
  | cons c cs ih =>
    simp only [List.all_cons, Bool.and_eq_true] at h
    by_cases hp : p c = true
    · rw [show (c :: cs).dropWhile p = cs.dropWhile p from by simp [List.dropWhile, hp]]
      exact ih h.2
    · rw [show (c :: cs).dropWhile p = c :: cs from by
        simp [List.dropWhile, Bool.eq_false_iff.mpr hp]]
      simp [h.1, h.2]

theorem matchChecklist_indent (l : List Char) :
    matchChecklist (' ' :: ' ' :: l) = none := rfl

theorem dropWhile_notWs (f : List Char) (hf : ∀ c, f.head? = some c → isJsWs c = false)
    (tl : List Char) (hne : f ≠ []) : (f ++ tl).dropWhile isJsWs = f ++ tl := by
  cases f with
  | nil => exact absurd rfl hne
  | cons c cs =>
    have : isJsWs c = false := hf c rfl
    simp [List.dropWhile, this]

theorem dropWhile_rev_notLast (f : List Char)
    (hl : ∀ c, f.getLast? = some c → isJsWs c = false) :
    f.reverse.dropWhile isJsWs = f.reverse := by
  cases hr : f.reverse with
  | nil => simp
  | cons c cs =>
    have hcl : f.getLast? = some c := by
      rw [← List.head?_reverse, hr]; rfl
    simp [List.dropWhile, hl c hcl]

theorem remSuffix?_withTag (f : List Char) (h1 h2 m1 m2 : Char)
    (hd1 : h1.isDigit = true) (hd2 : h2.isDigit = true)
    (hd3 : m1.isDigit = true) (hd4 : m2.isDigit = true)
    (hlast : ∀ c, f.getLast? = some c → isJsWs c = false) :
    remSuffix? (f ++ ' ' :: '@' :: 'r' :: 'e' :: 'm' :: 'i' :: 'n' :: 'd' :: ':' ::
        [h1, h2, ':', m1, m2])
      = some ([h1, h2, ':', m1, m2], f) := by
  have hrev : (f ++ ' ' :: '@' :: 'r' :: 'e' :: 'm' :: 'i' :: 'n' :: 'd' :: ':' ::
      [h1, h2, ':', m1, m2]).reverse
      = m2 :: m1 :: ':' :: h2 :: h1 :: ':' :: 'd' :: 'n' :: 'i' :: 'm' :: 'e' :: 'r' :: '@' ::
        (' ' :: f.reverse) := by
    simp
  unfold remSuffix?
  rw [hrev]
  simp only [hd1, hd2, hd3, hd4, Bool.and_self, if_pos]
  have : ((' ' :: f.reverse).dropWhile isJsWs).reverse = f := by
    have hsp : isJsWs ' ' = true := by decide
    simp only [List.dropWhile, hsp]
    rw [dropWhile_rev_notLast f hlast, List.reverse_reverse]
  rw [this]

theorem extractReminder_noTag (f : List Char) (h : (remSuffix? f).isNone = true) :
    extractReminder f = (none, f) := by
  unfold extractReminder
  rw [Option.isNone_iff_eq_none.mp h]


theorem headNotWs_spec (l : List Char) (h : headNotWs l = true) :
    ∀ c, l.head? = some c → isJsWs c = false := by
  intro c hc
  unfold headNotWs at h
  rw [hc] at h
  simpa using h

theorem lastNotWs_spec (l : List Char) (h : lastNotWs l = true) :
    ∀ c, l.getLast? = some c → isJsWs c = false := by
  intro c hc
  unfold lastNotWs at h
  rw [hc] at h
  simpa using h

theorem isRemFormat_spec (r : List Char) (h : isRemFormat r = true) :
    ∃ h1 h2 m1 m2, r = [h1, h2, ':', m1, m2] ∧ h1.isDigit = true ∧ h2.isDigit = true ∧
      m1.isDigit = true ∧ m2.isDigit = true := by
  unfold isRemFormat at h
  split at h
  · next h1 h2 c m1 m2 =>
    simp only [Bool.and_eq_true, beq_iff_eq] at h
    exact ⟨h1, h2, m1, m2, by rw [h.1.1.2], h.1.1.1.1, h.1.1.1.2, h.1.2, h.2⟩
  · exact absurd h (by simp)

theorem remSuffix?_emptyPrefix (h1 h2 m1 m2 : Char)
    (hd1 : h1.isDigit = true) (hd2 : h2.isDigit = true)
    (hd3 : m1.isDigit = true) (hd4 : m2.isDigit = true) :
    remSuffix? ('@' :: 'r' :: 'e' :: 'm' :: 'i' :: 'n' :: 'd' :: ':' :: [h1, h2, ':', m1, m2])
      = some ([h1, h2, ':', m1, m2], []) := by
  unfold remSuffix?
  have hrev : ('@' :: 'r' :: 'e' :: 'm' :: 'i' :: 'n' :: 'd' :: ':' ::
      [h1, h2, ':', m1, m2] : List Char).reverse
      = m2 :: m1 :: ':' :: h2 :: h1 :: ':' :: 'd' :: 'n' :: 'i' :: 'm' :: 'e' :: 'r' :: '@' ::
        ([] : List Char) := by
    simp
  rw [hrev]
  simp [hd1, hd2, hd3, hd4]

/-- The reminder tag never contains a line terminator. -/
theorem remTag_noTerm (o : Option (List Char))
    (hfmt : ∀ r, o = some r → isRemFormat r = true) :
    (remTag o).all (fun c => !isLineTerminator c) = true := by
  cases o with
  | none => simp [remTag]
  | some r =>
    obtain ⟨h1, h2, m1, m2, hr, hd1, hd2, hd3, hd4⟩ := isRemFormat_spec r (hfmt r rfl)
    subst hr
    simp only [remTag, List.all_cons, List.all_nil, Bool.and_eq_true, Bool.not_eq_true']
    repeat' apply And.intro
    all_goals first
    | decide
    | exact noTerm_of_digit _ hd1
    | exact noTerm_of_digit _ hd2
    | exact noTerm_of_digit _ hd3
    | exact noTerm_of_digit _ hd4

/-- Processing the first serialized line of a well-formed item recovers its
completion flag, reminder, and first text line. -/
theorem firstLine_roundtrip (it : TodoItem) (hwf : wfTodo it = true) :
    ∃ captured,
      matchChecklist ('[' :: (if it.completed then 'x' else ' ') :: ']' :: ' ' ::
          ((splitOnNl it.text).headI ++ remTag it.reminderTime)) = some (it.completed, captured)
      ∧ extractReminder captured = (it.reminderTime, (splitOnNl it.text).headI) := by
  unfold wfTodo at hwf
  simp only [Bool.and_eq_true] at hwf
  obtain ⟨⟨hhead, hterm⟩, hrest⟩ := hwf
  have hfmt : ∀ r, it.reminderTime = some r → isRemFormat r = true := by
    intro r hr
    rw [hr] at hrest
    simp only [Bool.and_eq_true] at hrest
    exact hrest.1
  have htag := remTag_noTerm it.reminderTime hfmt
  have hall : ((splitOnNl it.text).headI ++ remTag it.reminderTime).all
      (fun c => !isLineTerminator c) = true := by
    rw [List.all_append, hterm, htag]
    rfl
  have hcapterm := all_dropWhile_of_all isJsWs _ _ hall
  have hmc := matchChecklist_checkbox it.completed
    ((splitOnNl it.text).headI ++ remTag it.reminderTime) hcapterm
  refine ⟨((splitOnNl it.text).headI ++ remTag it.reminderTime).dropWhile isJsWs, hmc, ?_⟩
  clear hmc hcapterm hall htag hfmt
  cases hrem : it.reminderTime with
  | none =>
    rw [hrem] at hrest
    have hcap : ((splitOnNl it.text).headI ++ remTag none).dropWhile isJsWs
        = (splitOnNl it.text).headI := by
      cases hf : (splitOnNl it.text).headI with
      | nil => simp [remTag]
      | cons c cs =>
        have := headNotWs_spec _ hhead c (by rw [hf]; rfl)
        simp [remTag, List.dropWhile, this]
    rw [hcap, extractReminder_noTag _ hrest]
  | some r =>
    rw [hrem] at hrest
    simp only [Bool.and_eq_true] at hrest
    obtain ⟨hfmt, hlast⟩ := hrest
    obtain ⟨h1, h2, m1, m2, hr, hd1, hd2, hd3, hd4⟩ := isRemFormat_spec r hfmt
    subst hr
    cases hf : (splitOnNl it.text).headI with
    | nil =>
      have hcap : (([] : List Char) ++ remTag (some [h1, h2, ':', m1, m2])).dropWhile isJsWs
          = '@' :: 'r' :: 'e' :: 'm' :: 'i' :: 'n' :: 'd' :: ':' :: [h1, h2, ':', m1, m2] := by
        simp [remTag, List.dropWhile, show isJsWs ' ' = true from by decide,
          show isJsWs '@' = false from by decide]
      rw [hcap]
      unfold extractReminder
      rw [remSuffix?_emptyPrefix h1 h2 m1 m2 hd1 hd2 hd3 hd4]
    | cons c cs =>
      have hcap : ((c :: cs) ++ remTag (some [h1, h2, ':', m1, m2])).dropWhile isJsWs
          = (c :: cs) ++ remTag (some [h1, h2, ':', m1, m2]) := by
        have := headNotWs_spec _ hhead c (by rw [hf]; rfl)
        simp [List.dropWhile, this]
      rw [hcap]
      unfold extractReminder
      have hrs := remSuffix?_withTag (c :: cs) h1 h2 m1 m2 hd1 hd2 hd3 hd4
        (by rw [← hf]; exact lastNotWs_spec _ hlast)
      rw [show ((c :: cs) ++ remTag (some [h1, h2, ':', m1, m2]))
          = ((c :: cs) ++ ' ' :: '@' :: 'r' :: 'e' :: 'm' :: 'i' :: 'n' :: 'd' :: ':' ::
            [h1, h2, ':', m1, m2]) from rfl]
      rw [hrs]


theorem parseLoop_cons (l : List Char) (ls : List (List Char)) (cur : Option TodoItem) :
    parseLoop (l :: ls) cur =
      match matchChecklist l with
      | some p =>
        cur.toList ++ parseLoop ls (some ⟨(extractReminder p.2).2, p.1, (extractReminder p.2).1⟩)
      | none =>
        match cur with
        | some item =>
          if l.take 2 = [' ', ' '] then
            parseLoop ls (some ⟨item.text ++ '\n' :: l.drop 2, item.completed, item.reminderTime⟩)
          else if jsTrim l = [] then
            parseLoop ls (some ⟨item.text ++ ['\n'], item.completed, item.reminderTime⟩)
          else
            item :: parseLoop ls (some ⟨l, false, none⟩)
        | none =>
          if jsTrim l = [] then
            parseLoop ls none
          else
            parseLoop ls (some ⟨l, false, none⟩) := rfl

theorem parseLoop_cons_checklist (l : List Char) (ls : List (List Char)) (cur : Option TodoItem)
    (done : Bool) (captured : List Char) (h : matchChecklist l = some (done, captured)) :
    parseLoop (l :: ls) cur
      = cur.toList ++ parseLoop ls
          (some ⟨(extractReminder captured).2, done, (extractReminder captured).1⟩) := by
  rw [parseLoop_cons, h]

theorem parseLoop_cons_indent (l : List Char) (ls : List (List Char))
    (t : List Char) (done : Bool) (rem : Option (List Char)) :
    parseLoop ((' ' :: ' ' :: l) :: ls) (some ⟨t, done, rem⟩)
      = parseLoop ls (some ⟨t ++ '\n' :: l, done, rem⟩) := by
  rw [parseLoop_cons, matchChecklist_indent]
  rfl


theorem parseLoop_indentBlock (ls : List (List Char)) (rest : List (List Char))
    (t : List Char) (done : Bool) (rem : Option (List Char)) :
    parseLoop (ls.map (fun l => ' ' :: ' ' :: l) ++ rest) (some ⟨t, done, rem⟩)
      = parseLoop rest (some ⟨t ++ (ls.map (fun l => '\n' :: l)).flatten, done, rem⟩) := by
  induction ls generalizing t with
  | nil => simp
  | cons l ls ih =>
    rw [List.map_cons, List.cons_append, parseLoop_cons_indent, ih]
    simp

theorem joinNl_eq_headI (ls : List (List Char)) (h : ls ≠ []) :
    joinNl ls = ls.headI ++ (ls.tail.map (fun l => '\n' :: l)).flatten := by
  induction ls with
  | nil => exact absurd rfl h
  | cons l ls ih =>
    cases ls with
    | nil => simp [joinNl]
    | cons l2 ls2 =>
      rw [joinNl_cons _ _ (by simp), ih (by simp)]
      simp

theorem noNl_remTag (o : Option (List Char))
    (hfmt : ∀ r, o = some r → isRemFormat r = true) : '\n' ∉ remTag o := by
  cases o with
  | none => simp [remTag]
  | some r =>
    obtain ⟨h1, h2, m1, m2, hr, hd1, hd2, hd3, hd4⟩ := isRemFormat_spec r (hfmt r rfl)
    subst hr
    intro hm
    simp only [remTag, List.mem_cons, List.not_mem_nil, or_false] at hm
    rcases hm with h | h | h | h | h | h | h | h | h | h | h | h | h | h
    all_goals first
    | (exact absurd h (by decide))
    | (rw [← h] at hd1; exact absurd hd1 (by decide))
    | (rw [← h] at hd2; exact absurd hd2 (by decide))
    | (rw [← h] at hd3; exact absurd hd3 (by decide))
    | (rw [← h] at hd4; exact absurd hd4 (by decide))

/-- Consuming one well-formed item's serialized lines flushes the running item
and installs the decoded item as the new running item. -/
theorem parseLoop_item (it : TodoItem) (hwf : wfTodo it = true)
    (rest : List (List Char)) (cur : Option TodoItem) :
    parseLoop (splitOnNl (serializeItem it) ++ rest) cur
      = cur.toList ++ parseLoop rest (some it) := by
  have hfmt : ∀ r, it.reminderTime = some r → isRemFormat r = true := by
    intro r hr
    unfold wfTodo at hwf
    rw [hr] at hwf
    simp only [Bool.and_eq_true] at hwf
    tauto
  have hnoNlFirst : '\n' ∉ ('[' :: (if it.completed then 'x' else ' ') :: ']' :: ' ' ::
      ((splitOnNl it.text).headI ++ remTag it.reminderTime)) := by
    intro hm
    simp only [List.mem_cons, List.mem_append] at hm
    rcases hm with h | h | h | h | h | h
    · exact absurd h (by decide)
    · split at h <;> exact absurd h (by decide)
    · exact absurd h (by decide)
    · exact absurd h (by decide)
    · exact noNl_headI it.text h
    · exact noNl_remTag it.reminderTime hfmt h
  have hdec : splitOnNl (serializeItem it)
      = ('[' :: (if it.completed then 'x' else ' ') :: ']' :: ' ' ::
          ((splitOnNl it.text).headI ++ remTag it.reminderTime))
        :: ((splitOnNl it.text).tail.map (fun l => ' ' :: ' ' :: l)) := by
    have hassoc : serializeItem it
        = ('[' :: (if it.completed then 'x' else ' ') :: ']' :: ' ' ::
            ((splitOnNl it.text).headI ++ remTag it.reminderTime))
          ++ ((splitOnNl it.text).tail.map (fun l => '\n' :: ' ' :: ' ' :: l)).flatten := by
      unfold serializeItem
      simp
    rw [hassoc, splitOnNl_indentBlock _ _ hnoNlFirst
      (fun l hl => noNl_of_mem_tail it.text l hl)]
  obtain ⟨captured, hmc, hex⟩ := firstLine_roundtrip it hwf
  rw [hdec, List.cons_append, parseLoop_cons_checklist _ _ _ _ _ hmc, hex]
  dsimp only
  rw [parseLoop_indentBlock]
  have htext : (splitOnNl it.text).headI ++
      (((splitOnNl it.text).tail).map (fun l => '\n' :: l)).flatten = it.text := by
    rw [← joinNl_eq_headI _ (splitOnNl_ne_nil it.text), joinNl_splitOnNl]
  rw [htext]


theorem parseLoop_items (L : List TodoItem) (hwf : ∀ it ∈ L, wfTodo it = true)
    (cur : Option TodoItem) (hL : L ≠ []) :
    parseLoop (splitOnNl (joinNl (L.map serializeItem))) cur = cur.toList ++ L := by
  induction L generalizing cur with
  | nil => exact absurd rfl hL
  | cons it L ih =>
    cases L with
    | nil =>
      have h := parseLoop_item it (hwf it (List.mem_cons_self it [])) [] cur
      simpa [joinNl] using h
    | cons it2 L2 =>
      rw [List.map_cons, joinNl_cons _ _ (by simp), splitOnNl_append_nl,
        parseLoop_item it (hwf it (List.mem_cons_self it _)) _ cur,
        ih (fun x hx => hwf x (List.mem_cons_of_mem it hx)) (some it) (by simp)]
      rfl

theorem dropWhile_ne_nil_of_notWs (l : List Char) (c : Char) (hc : c ∈ l)
    (hws : isJsWs c = false) : l.dropWhile isJsWs ≠ [] := by
  intro h
  have := List.dropWhile_eq_nil_iff.mp h c hc
  rw [hws] at this
  exact absurd this (by simp)

theorem jsTrim_cons_ne_nil (c : Char) (rest : List Char) (hc : isJsWs c = false) :
    jsTrim (c :: rest) ≠ [] := by
  unfold jsTrim
  rw [show (c :: rest : List Char).dropWhile isJsWs = c :: rest from by
    simp [List.dropWhile, hc]]
  intro h
  have h2 : (c :: rest : List Char).reverse.dropWhile isJsWs = [] := by
    have h3 := congrArg List.reverse h
    rwa [List.reverse_reverse, List.reverse_nil] at h3
  exact dropWhile_ne_nil_of_notWs _ c (by simp) hc h2

theorem serializeItem_shape (it : TodoItem) :
    ∃ r, serializeItem it = '[' :: r := ⟨_, rfl⟩

theorem serializeItems_cons_shape (it : TodoItem) (L : List TodoItem) :
    ∃ r, serializeItems (it :: L) = '[' :: r := by
  unfold serializeItems
  rw [List.map_cons]
  obtain ⟨r, hr⟩ := serializeItem_shape it
  cases hL : L.map serializeItem with
  | nil => exact ⟨r, by simpa [joinNl] using hr⟩
  | cons x xs =>
    rw [joinNl_cons _ _ (by simp), hr]
    exact ⟨r ++ '\n' :: joinNl (x :: xs), by simp⟩

/-- C2 (amended): the daily-note codec round-trips every item list whose items
are well-formed in the sense of `wfTodo` (first line not starting with
whitespace; no spurious `@remind:` suffix when no reminder is attached; an
attached reminder in `HH:mm` shape and no trailing whitespace on the first
line), including the claim's own condition that no text line begins with two
spaces. -/
theorem parseContent_serializeItems (L : List TodoItem)
    (hna : ∀ it ∈ L, noIndentedLine it = true)
    (hwf : ∀ it ∈ L, wfTodo it = true) :
    parseContent (serializeItems L) = L := by
  cases L with
  | nil => rfl
  | cons it L =>
    unfold parseContent
    obtain ⟨r, hr⟩ := serializeItems_cons_shape it L
    rw [if_neg (by rw [hr]; exact jsTrim_cons_ne_nil '[' r (by decide))]
    have := parseLoop_items (it :: L) hwf none (by simp)
    unfold serializeItems at hr ⊢
    simpa using this

theorem parseContent_serializeItems_witness :
    (∀ it ∈ [(⟨['m', 'i', 'l', 'k'], false, none⟩ : TodoItem),
             ⟨['g', 'y', 'm', '\n', 'a', 't', ' ', '6'], true, some ['0', '7', ':', '3', '0']⟩],
        noIndentedLine it = true) ∧
    (∀ it ∈ [(⟨['m', 'i', 'l', 'k'], false, none⟩ : TodoItem),
             ⟨['g', 'y', 'm', '\n', 'a', 't', ' ', '6'], true, some ['0', '7', ':', '3', '0']⟩],
        wfTodo it = true) ∧
    parseContent (serializeItems
        [⟨['m', 'i', 'l', 'k'], false, none⟩,
         ⟨['g', 'y', 'm', '\n', 'a', 't', ' ', '6'], true, some ['0', '7', ':', '3', '0']⟩])
      = [⟨['m', 'i', 'l', 'k'], false, none⟩,
         ⟨['g', 'y', 'm', '\n', 'a', 't', ' ', '6'], true, some ['0', '7', ':', '3', '0']⟩] :=
  ⟨by decide, by decide,
    parseContent_serializeItems _ (by decide) (by decide)⟩

theorem parseContent_serializeItems_cex :
    noIndentedLine ⟨[' ', 'a'], false, none⟩ = true ∧
    parseContent (serializeItems [⟨[' ', 'a'], false, none⟩]) = [⟨['a'], false, none⟩] ∧
    parseContent (serializeItems [⟨[' ', 'a'], false, none⟩]) ≠ [⟨[' ', 'a'], false, none⟩] := by
  refine ⟨by decide, by decide, by decide⟩

/-! ### Persistence model and API handlers -/

structure TaskRow where
  id : String
  userId : String
  name : String
  description : Option String
  color : String
  emoji : Option String
  isActive : Bool
  sortOrder : Int
  createdAt : Int
deriving DecidableEq, Repr

structure CompletionRow where
  id : Nat
  taskId : String
  date : Int
  completed : Bool
deriving DecidableEq, Repr

structure NoteRow where
  id : String
  userId : String
  title : String
  content : String
deriving DecidableEq, Repr

structure Db where
  tasks : List TaskRow
  completions : List CompletionRow
  notes : List NoteRow
  nextCompletionId : Nat
deriving DecidableEq, Repr

/-- The unique key `taskId_date` of the completions table. -/
def completionKey (taskId : String) (date : Int) (r : CompletionRow) : Bool :=
  r.taskId == taskId && r.date == date

/-- `parseToUTCNoon` (completions route): read the request date's local
calendar components and build the noon-UTC instant — the same computation as
`formatDateForStorage`. -/
def parseToUTCNoon (t off : Int) : Int :=
  dateUTC (localCivil t off).year (localCivil t off).month (localCivil t off).day 12

/-- POST /api/completions: normalize the date, check task ownership, then
create/update the completion row (`completed = true`) or delete it
(`completed = false`). -/
def toggleCompletion (db : Db) (uid taskId : String) (dateMs off : Int)
    (completed : Bool) : Nat × Db :=
  match db.tasks.find? (fun t => t.id == taskId && t.userId == uid) with
  | none => (404, db)
  | some _ =>
    if completed then
      match db.completions.find? (completionKey taskId (parseToUTCNoon dateMs off)) with
      | some e =>
        (200, { db with completions := db.completions.map (fun r =>
          if r.id == e.id then { r with completed := true } else r) })
      | none =>
        (200, { db with
          completions := db.completions ++
            [⟨db.nextCompletionId, taskId, parseToUTCNoon dateMs off, true⟩],
          nextCompletionId := db.nextCompletionId + 1 })
    else
      match db.completions.find? (completionKey taskId (parseToUTCNoon dateMs off)) with
      | some e =>
        (200, { db with completions := db.completions.filter (fun r => !(r.id == e.id)) })
      | none => (200, db)

theorem filter_single_of_find?_some {p : CompletionRow → Bool} {l : List CompletionRow}
    {e : CompletionRow} (hf : l.find? p = some e) (hlen : (l.filter p).length ≤ 1) :
    l.filter p = [e] := by
  have hmem : e ∈ l.filter p :=
    List.mem_filter.mpr ⟨List.mem_of_find?_eq_some hf, List.find?_some hf⟩
  cases hl : l.filter p with
  | nil => rw [hl] at hmem; exact absurd hmem (by simp)
  | cons x xs =>
    rw [hl] at hmem hlen
    simp only [List.length_cons] at hlen
    have hxs : xs = [] := List.eq_nil_of_length_eq_zero (by omega)
    subst hxs
    simp only [List.mem_singleton] at hmem
    rw [hmem]

/-- C4: toggling a completion for an owned task.  With the unique constraint
on `(taskId, date)` (at most one row for the key), toggling true leaves
exactly one row for the key and it has `completed = true`, toggling false
leaves zero rows, and the unique constraint is preserved; no row with
`completed = false` is ever created or left behind. -/
theorem toggleCompletion_spec (db : Db) (uid taskId : String) (dateMs off : Int)
    (completed : Bool)
    (howned : ∃ t ∈ db.tasks, t.id = taskId ∧ t.userId = uid)
    (hinv : (db.completions.filter
        (completionKey taskId (parseToUTCNoon dateMs off))).length ≤ 1) :
    (toggleCompletion db uid taskId dateMs off completed).1 = 200 ∧
    (completed = true → ∃ r,
      ((toggleCompletion db uid taskId dateMs off completed).2.completions.filter
        (completionKey taskId (parseToUTCNoon dateMs off))) = [r] ∧ r.completed = true) ∧
    (completed = false →
      ((toggleCompletion db uid taskId dateMs off completed).2.completions.filter
        (completionKey taskId (parseToUTCNoon dateMs off))) = []) ∧
    ((toggleCompletion db uid taskId dateMs off completed).2.completions.filter
        (completionKey taskId (parseToUTCNoon dateMs off))).length ≤ 1 := by
  obtain ⟨t0, ht0mem, ht0id, ht0uid⟩ := howned
  have hfind : db.tasks.find? (fun t => t.id == taskId && t.userId == uid) ≠ none := by
    intro hnone
    have := List.find?_eq_none.mp hnone t0 ht0mem
    simp [ht0id, ht0uid] at this
  obtain ⟨tk, hft⟩ := Option.ne_none_iff_exists'.mp hfind
  cases completed with
  | true =>
    cases hex : db.completions.find? (completionKey taskId (parseToUTCNoon dateMs off)) with
    | some e =>
      have hstep : toggleCompletion db uid taskId dateMs off true
          = (200, { db with completions := db.completions.map (fun r =>
              if r.id == e.id then { r with completed := true } else r) }) := by
        unfold toggleCompletion
        rw [hft, hex]
        rfl
      have hone := filter_single_of_find?_some hex hinv
      have hres : (db.completions.map (fun r =>
          if r.id == e.id then { r with completed := true } else r)).filter
            (completionKey taskId (parseToUTCNoon dateMs off))
          = [{ e with completed := true }] := by
        have hcomp : (completionKey taskId (parseToUTCNoon dateMs off) ∘ (fun r =>
            if r.id == e.id then { r with completed := true } else r))
            = completionKey taskId (parseToUTCNoon dateMs off) := by
          funext r
          by_cases h : r.id == e.id <;> simp [h, completionKey, Function.comp]
        rw [List.filter_map, hcomp, hone]
        simp
      rw [hstep]
      dsimp only
      exact ⟨rfl, fun _ => ⟨{ e with completed := true }, hres, rfl⟩, by simp,
        by rw [hres]; simp⟩
    | none =>
      have hstep : toggleCompletion db uid taskId dateMs off true
          = (200, { db with
              completions := db.completions ++
                [⟨db.nextCompletionId, taskId, parseToUTCNoon dateMs off, true⟩],
              nextCompletionId := db.nextCompletionId + 1 }) := by
        unfold toggleCompletion
        rw [hft, hex]
        rfl
      have hnil : db.completions.filter
          (completionKey taskId (parseToUTCNoon dateMs off)) = [] := by
        apply List.eq_nil_iff_forall_not_mem.mpr
        intro r hr
        rcases List.mem_filter.mp hr with ⟨hrm, hrp⟩
        exact absurd hrp (by simpa using List.find?_eq_none.mp hex r hrm)
      have hres : ((db.completions ++
          [(⟨db.nextCompletionId, taskId, parseToUTCNoon dateMs off, true⟩ : CompletionRow)]).filter
            (completionKey taskId (parseToUTCNoon dateMs off)))
          = [(⟨db.nextCompletionId, taskId, parseToUTCNoon dateMs off, true⟩ : CompletionRow)] := by
        rw [List.filter_append, hnil, List.nil_append]
        simp [completionKey]
      rw [hstep]
      dsimp only
      refine ⟨rfl, fun _ => ?_, by simp, by rw [hres]; simp⟩
      exact ⟨(⟨db.nextCompletionId, taskId, parseToUTCNoon dateMs off, true⟩ : CompletionRow),
        hres, rfl⟩
  | false =>
    cases hex : db.completions.find? (completionKey taskId (parseToUTCNoon dateMs off)) with
    | some e =>
      have hstep : toggleCompletion db uid taskId dateMs off false
          = (200, { db with completions :=
              db.completions.filter (fun r => !(r.id == e.id)) }) := by
        unfold toggleCompletion
        rw [hft, hex]
        rfl
      have hone := filter_single_of_find?_some hex hinv
      have hres : ((db.completions.filter (fun r => !(r.id == e.id))).filter
          (completionKey taskId (parseToUTCNoon dateMs off))) = [] := by
        apply List.eq_nil_iff_forall_not_mem.mpr
        intro r hr
        rcases List.mem_filter.mp hr with ⟨hrm, hrp⟩
        rcases List.mem_filter.mp hrm with ⟨hrm2, hrne⟩
        have hmem : r ∈ db.completions.filter
            (completionKey taskId (parseToUTCNoon dateMs off)) :=
          List.mem_filter.mpr ⟨hrm2, hrp⟩
        rw [hone] at hmem
        simp only [List.mem_singleton] at hmem
        subst hmem
        simp at hrne
      rw [hstep]
      dsimp only
      exact ⟨rfl, by simp, fun _ => hres, by rw [hres]; simp⟩
    | none =>
      have hstep : toggleCompletion db uid taskId dateMs off false = (200, db) := by
        unfold toggleCompletion
        rw [hft, hex]
        rfl
      have hnil : db.completions.filter
          (completionKey taskId (parseToUTCNoon dateMs off)) = [] := by
        apply List.eq_nil_iff_forall_not_mem.mpr
        intro r hr
        rcases List.mem_filter.mp hr with ⟨hrm, hrp⟩
        exact absurd hrp (by simpa using List.find?_eq_none.mp hex r hrm)
      rw [hstep]
      dsimp only
      exact ⟨rfl, by simp, fun _ => hnil, by rw [hnil]; simp⟩


/-- First position of an id in the submitted list: the sort order the reorder
route's `taskIds.map((taskId, index) => update({where: {id: taskId}},
{sortOrder: index}))` assigns to tasks with that id. -/
def idIndex (taskIds : List String) (id : String) : Option Nat :=
  match taskIds with
  | [] => none
  | a :: rest => if a == id then some 0 else (idIndex rest id).map (· + 1)

/-- PUT /api/tasks/reorder: validate the id list is nonempty, check every id
belongs to a task of the caller by comparing the number of matching owned
rows with the submitted list's length, then set each listed task's sort
order to its position in the list. -/
def reorderTasks (db : Db) (uid : String) (taskIds : List String) : Nat × Db :=
  if taskIds.length < 1 then (400, db)
  else if (db.tasks.filter (fun t => taskIds.contains t.id && t.userId == uid)).length
      ≠ taskIds.length then (404, db)
  else
    (200, { db with tasks := db.tasks.map (fun t =>
      match idIndex taskIds t.id with
      | some i => { t with sortOrder := (i : Int) }
      | none => t) })

/-- GET /api/tasks ordering: sort order ascending, creation time as
tie-break. -/
def taskOrder (a b : TaskRow) : Prop :=
  a.sortOrder < b.sortOrder ∨ (a.sortOrder = b.sortOrder ∧ a.createdAt ≤ b.createdAt)

instance : DecidableRel taskOrder := fun a b => by
  unfold taskOrder
  infer_instance

instance : IsTotal TaskRow taskOrder :=
  ⟨fun a b => by unfold taskOrder; omega⟩

instance : IsTrans TaskRow taskOrder :=
  ⟨fun a b c hab hbc => by unfold taskOrder at *; omega⟩

/-- GET /api/tasks: the caller's active tasks, ordered by `taskOrder`
(the completion include is not modelled; it does not affect the order). -/
def listTasks (db : Db) (uid : String) : List TaskRow :=
  List.insertionSort taskOrder (db.tasks.filter (fun t => t.userId == uid && t.isActive))

theorem idIndex_getElem (l : List String) (hnd : l.Nodup) (i : Nat) (h : i < l.length) :
    idIndex l l[i] = some i := by
  induction l generalizing i with
  | nil => simp at h
  | cons a rest ih =>
    cases i with
    | zero => simp [idIndex]
    | succ n =>
      have hn : n < rest.length := by simpa using h
      have hmem : rest[n] ∈ rest := List.getElem_mem hn
      have ha : (a == rest[n]) = false := by
        have hne : a ≠ rest[n] := by
          intro he
          exact (List.nodup_cons.mp hnd).1 (he ▸ hmem)
        simpa using hne
      have hgt : (a :: rest)[n + 1] = rest[n] := rfl
      rw [hgt]
      simp only [idIndex, ha, Bool.false_eq_true, if_neg, ite_false]
      rw [ih (List.nodup_cons.mp hnd).2 n hn]
      rfl

/-- The ownership count check of the reorder route succeeds exactly when the
submitted ids are distinct and each belongs to a task of the caller (given
unique task ids). -/
theorem reorder_count_iff (db : Db) (uid : String) (taskIds : List String)
    (hpk : (db.tasks.map TaskRow.id).Nodup) :
    (db.tasks.filter (fun t => taskIds.contains t.id && t.userId == uid)).length
        = taskIds.length ↔
      taskIds.Nodup ∧ ∀ id ∈ taskIds, ∃ t ∈ db.tasks, t.id = id ∧ t.userId = uid := by
  set rows := db.tasks.filter (fun t => taskIds.contains t.id && t.userId == uid) with hrows
  have hnodup : (rows.map TaskRow.id).Nodup :=
    ((List.filter_sublist db.tasks).map TaskRow.id).nodup hpk
  have hsubset : rows.map TaskRow.id ⊆ taskIds := by
    intro x hx
    rcases List.mem_map.mp hx with ⟨t, ht, rfl⟩
    have hcond := (List.mem_filter.mp ht).2
    simp only [Bool.and_eq_true] at hcond
    simpa using hcond.1
  constructor
  · intro hlen
    have hlenmap : (rows.map TaskRow.id).length = taskIds.length := by
      rw [List.length_map]
      exact hlen
    have hsubdedup : rows.map TaskRow.id ⊆ taskIds.dedup := fun x hx =>
      List.mem_dedup.mpr (hsubset hx)
    have hsp : List.Subperm (rows.map TaskRow.id) taskIds.dedup :=
      hnodup.subperm hsubdedup
    have hle : taskIds.length ≤ taskIds.dedup.length := by
      rw [← hlenmap]
      exact hsp.length_le
    have hded : taskIds.dedup = taskIds :=
      (List.dedup_sublist taskIds).eq_of_length
        (Nat.le_antisymm (List.dedup_sublist taskIds).length_le hle)
    have hndup : taskIds.Nodup := hded ▸ taskIds.nodup_dedup
    refine ⟨hndup, ?_⟩
    have hsp2 : List.Subperm (rows.map TaskRow.id) taskIds := hnodup.subperm hsubset
    have hperm : List.Perm (rows.map TaskRow.id) taskIds :=
      hsp2.perm_of_length_le (by rw [hlenmap])
    intro id hid
    have hmem : id ∈ rows.map TaskRow.id := hperm.mem_iff.mpr hid
    rcases List.mem_map.mp hmem with ⟨t, ht, rfl⟩
    have hmf := List.mem_filter.mp ht
    have hcond := hmf.2
    simp only [Bool.and_eq_true, beq_iff_eq] at hcond
    exact ⟨t, hmf.1, rfl, hcond.2⟩
  · rintro ⟨hndup, hcov⟩
    have hsup : taskIds ⊆ rows.map TaskRow.id := by
      intro id hid
      obtain ⟨t, htmem, htid, htuid⟩ := hcov id hid
      have htr : t ∈ rows := by
        rw [hrows]
        refine List.mem_filter.mpr ⟨htmem, ?_⟩
        simp [htid, htuid, hid]
      exact List.mem_map.mpr ⟨t, htr, htid⟩
    have h1 : taskIds.length ≤ (rows.map TaskRow.id).length :=
      (hndup.subperm hsup).length_le
    have h2 : (rows.map TaskRow.id).length ≤ taskIds.length :=
      (hnodup.subperm hsubset).length_le
    have heq := Nat.le_antisymm h2 h1
    rw [List.length_map] at heq
    exact heq

/-- C6 (amended): the reorder call fails exactly when the submitted list is
empty, contains a duplicate, or contains an id that is not a task of the
caller; on failure no sort order is updated.  In particular a proper subset
of the caller's tasks is accepted, not rejected. -/
theorem reorderTasks_failure_iff (db : Db) (uid : String) (taskIds : List String)
    (hpk : (db.tasks.map TaskRow.id).Nodup) :
    ((reorderTasks db uid taskIds).1 ≠ 200 ↔
      taskIds = [] ∨ ¬taskIds.Nodup ∨
        ∃ id ∈ taskIds, ¬∃ t ∈ db.tasks, t.id = id ∧ t.userId = uid) ∧
    ((reorderTasks db uid taskIds).1 ≠ 200 → (reorderTasks db uid taskIds).2 = db) := by
  by_cases h1 : taskIds.length < 1
  · have hnil : taskIds = [] := List.eq_nil_of_length_eq_zero (by omega)
    have hstep : reorderTasks db uid taskIds = (400, db) := by
      unfold reorderTasks
      rw [if_pos h1]
    rw [hstep]
    exact ⟨⟨fun _ => Or.inl hnil, fun _ => by simp⟩, fun _ => rfl⟩
  · by_cases h2 : (db.tasks.filter
        (fun t => taskIds.contains t.id && t.userId == uid)).length ≠ taskIds.length
    · have hstep : reorderTasks db uid taskIds = (404, db) := by
        unfold reorderTasks
        rw [if_neg h1, if_pos h2]
      have hnc : ¬(taskIds.Nodup ∧
          ∀ id ∈ taskIds, ∃ t ∈ db.tasks, t.id = id ∧ t.userId = uid) :=
        fun hc => h2 ((reorder_count_iff db uid taskIds hpk).mpr hc)
      rw [hstep]
      refine ⟨⟨fun _ => ?_, fun _ => by simp⟩, fun _ => rfl⟩
      rcases not_and_or.mp hnc with h | h
      · exact Or.inr (Or.inl h)
      · push_neg at h
        obtain ⟨id, hid, hno⟩ := h
        exact Or.inr (Or.inr ⟨id, hid, fun ⟨t, ht, hti, htu⟩ => hno t ht hti htu⟩)
    · rw [not_not] at h2
      have hcond := (reorder_count_iff db uid taskIds hpk).mp h2
      have hstep : (reorderTasks db uid taskIds).1 = 200 := by
        unfold reorderTasks
        rw [if_neg h1, if_neg (by rw [h2]; exact fun h => h rfl)]
      refine ⟨⟨fun hne => absurd hstep hne, fun hrhs => ?_⟩, fun hne => absurd hstep hne⟩
      rcases hrhs with h | h | h
      · rw [h] at h1
        exact absurd (by simp) h1
      · exact absurd hcond.1 h
      · obtain ⟨id, hid, hno⟩ := h
        exact absurd (hcond.2 id hid) hno

/-- C6 counterexample: a caller owning active tasks t1 and t2 submits the
proper subset [t1]; the call succeeds (status 200) and updates t1's sort
order, contradicting the claim that anything short of the full active set is
rejected with no updates. -/
theorem reorderTasks_subset_accepted :
    (reorderTasks
      ⟨[⟨"t1", "u1", "A", none, "#0ea5e9", none, true, 5, 0⟩,
        ⟨"t2", "u1", "B", none, "#0ea5e9", none, true, 6, 1⟩], [], [], 0⟩
      "u1" ["t1"]).1 = 200 ∧
    (reorderTasks
      ⟨[⟨"t1", "u1", "A", none, "#0ea5e9", none, true, 5, 0⟩,
        ⟨"t2", "u1", "B", none, "#0ea5e9", none, true, 6, 1⟩], [], [], 0⟩
      "u1" ["t1"]).2.tasks.map TaskRow.sortOrder = [0, 6] := by
  constructor
  · rfl
  · rfl

/-- C7: a successful reorder assigns each listed task the sort order equal to
its position in the submitted list, and the task-list GET returns exactly the
caller's active tasks in `taskOrder` (sort order ascending, creation time as
tie-break). -/
theorem reorderTasks_assigns_positions (db : Db) (uid : String) (taskIds : List String)
    (hpk : (db.tasks.map TaskRow.id).Nodup)
    (hsucc : (reorderTasks db uid taskIds).1 = 200) :
    (∀ t ∈ (reorderTasks db uid taskIds).2.tasks, ∀ i : Nat, ∀ hi : i < taskIds.length,
       t.id = taskIds[i] → t.sortOrder = (i : Int)) ∧
    List.Sorted taskOrder (listTasks (reorderTasks db uid taskIds).2 uid) ∧
    List.Perm (listTasks (reorderTasks db uid taskIds).2 uid)
      ((reorderTasks db uid taskIds).2.tasks.filter (fun t => t.userId == uid && t.isActive)) := by
  by_cases h1 : taskIds.length < 1
  · have hstep : reorderTasks db uid taskIds = (400, db) := by
      unfold reorderTasks
      rw [if_pos h1]
    rw [hstep] at hsucc
    simp at hsucc
  by_cases h2 : (db.tasks.filter
      (fun t => taskIds.contains t.id && t.userId == uid)).length ≠ taskIds.length
  · have hstep : reorderTasks db uid taskIds = (404, db) := by
      unfold reorderTasks
      rw [if_neg h1, if_pos h2]
    rw [hstep] at hsucc
    simp at hsucc
  rw [not_not] at h2
  have hndup : taskIds.Nodup := ((reorder_count_iff db uid taskIds hpk).mp h2).1
  have hstep : reorderTasks db uid taskIds
      = (200, { db with tasks := db.tasks.map (fun t =>
          match idIndex taskIds t.id with
          | some i => { t with sortOrder := (i : Int) }
          | none => t) }) := by
    unfold reorderTasks
    rw [if_neg h1, if_neg (by rw [h2]; exact fun h => h rfl)]
  rw [hstep]
  refine ⟨?_, List.sorted_insertionSort taskOrder _, List.perm_insertionSort taskOrder _⟩
  intro t ht i hi hid
  dsimp only at ht
  rcases List.mem_map.mp ht with ⟨t0, ht0, rfl⟩
  have hgi := idIndex_getElem taskIds hndup i hi
  cases hidx : idIndex taskIds t0.id with
  | none =>
    simp only [hidx] at hid ⊢
    rw [hid] at hidx
    rw [hgi] at hidx
    exact absurd hidx (by simp)
  | some j =>
    simp only [hidx] at hid ⊢
    rw [hid] at hidx
    rw [hgi] at hidx
    simp only [Option.some.injEq] at hidx
    rw [← hidx]

/-- Request body of POST /api/tasks; absent fields are `none`. -/
structure CreateTaskBody where
  name : Option String
  description : Option String
  color : Option String
  emoji : Option String
deriving DecidableEq, Repr

/-- The color regex of `createTaskSchema`: `^#[0-9A-Fa-f]{6}$`. -/
def validColor (s : String) : Bool :=
  match s.data with
  | '#' :: rest =>
    rest.length == 6 && rest.all (fun c =>
      c.isDigit || ('A' ≤ c && c ≤ 'F') || ('a' ≤ c && c ≤ 'f'))
  | _ => false

/-- `createTaskSchema.safeParse`: name required with 1..100 characters,
description at most 500, color matching the regex when present; emoji is any
string. -/
def validateCreateTask (b : CreateTaskBody) : Bool :=
  (match b.name with
   | some n => 1 ≤ n.length && n.length ≤ 100
   | none => false) &&
  (match b.description with
   | some d => d.length ≤ 500
   | none => true) &&
  (match b.color with
   | some c => validColor c
   | none => true)

/-- POST /api/tasks: validation failure returns 400 before any database
access; otherwise the task row is created with `color || '#0ea5e9'` and the
`description || null` / `emoji || null` coalescing of the source. -/
def createTask (db : Db) (uid : String) (b : CreateTaskBody) (newId : String)
    (now : Int) : Nat × Db :=
  if !validateCreateTask b then (400, db)
  else
    (201, { db with tasks := db.tasks ++ [{
      id := newId
      userId := uid
      name := b.name.getD ""
      description := match b.description with
        | some d => if d.length == 0 then none else some d
        | none => none
      color := match b.color with
        | some c => if c.length == 0 then "#0ea5e9" else c
        | none => "#0ea5e9"
      emoji := match b.emoji with
        | some e => if e.length == 0 then none else some e
        | none => none
      isActive := true
      sortOrder := 0
      createdAt := now }] })

/-- C10: an invalid color (anything failing the regex) makes the handler
return 400 with the database untouched, and when the color is omitted the
created task's color is the fixed default `#0ea5e9`. -/
theorem createTask_spec (db : Db) (uid : String) (b : CreateTaskBody)
    (newId : String) (now : Int) :
    (∀ c, b.color = some c → validColor c = false →
      createTask db uid b newId now = (400, db)) ∧
    (b.color = none → validateCreateTask b = true →
      (createTask db uid b newId now).1 = 201 ∧
      ∃ t, (createTask db uid b newId now).2.tasks = db.tasks ++ [t] ∧
        t.color = "#0ea5e9") := by
  constructor
  · intro c hc hv
    have hval : validateCreateTask b = false := by
      unfold validateCreateTask
      rw [hc]
      simp [hv]
    unfold createTask
    rw [hval]
    rfl
  · intro hc hval
    unfold createTask
    rw [hval]
    refine ⟨rfl, ?_⟩
    refine ⟨_, rfl, ?_⟩
    simp only [hc]

/-- C10 witness: creating a task named Run with color `red` returns 400 and
leaves the table unchanged; the same body without a color creates a task with
the default color. -/
theorem createTask_spec_witness :
    ((⟨some "Run", none, some "red", none⟩ : CreateTaskBody).color = some "red" ∧
      validColor "red" = false ∧
      createTask ⟨[], [], [], 0⟩ "u1" ⟨some "Run", none, some "red", none⟩ "t9" 0
        = (400, ⟨[], [], [], 0⟩)) ∧
    ((⟨some "Run", none, none, none⟩ : CreateTaskBody).color = none ∧
      validateCreateTask ⟨some "Run", none, none, none⟩ = true ∧
      (createTask ⟨[], [], [], 0⟩ "u1" ⟨some "Run", none, none, none⟩ "t9" 0).1 = 201) :=
  ⟨⟨rfl, by decide,
    (createTask_spec ⟨[], [], [], 0⟩ "u1" ⟨some "Run", none, some "red", none⟩ "t9" 0).1
      "red" rfl (by decide)⟩,
   ⟨rfl, by decide,
    ((createTask_spec ⟨[], [], [], 0⟩ "u1" ⟨some "Run", none, none, none⟩ "t9" 0).2
      rfl (by decide)).1⟩⟩
/-- Body of PATCH /api/tasks/{id} (`updateTaskSchema`); absent fields `none`. -/
structure UpdateTaskBody where
  name : Option String
  description : Option String
  color : Option String
  isActive : Option Bool
deriving DecidableEq, Repr

/-- `updateTaskSchema.safeParse`. -/
def validateUpdateTask (b : UpdateTaskBody) : Bool :=
  (match b.name with
   | some n => 1 ≤ n.length && n.length ≤ 100
   | none => true) &&
  (match b.description with
   | some d => d.length ≤ 500
   | none => true) &&
  (match b.color with
   | some c => validColor c
   | none => true)

/-- The partial update PATCH applies to the found task. -/
def applyTaskUpdate (b : UpdateTaskBody) (t : TaskRow) : TaskRow :=
  { t with
    name := b.name.getD t.name
    description := match b.description with
      | some d => some d
      | none => t.description
    color := b.color.getD t.color
    isActive := b.isActive.getD t.isActive }

/-- GET /api/tasks/{id}: ownership-filtered lookup; 404 when no owned match. -/
def getTask (db : Db) (uid id : String) : Nat × Db :=
  match db.tasks.find? (fun t => t.id == id && t.userId == uid) with
  | none => (404, db)
  | some _ => (200, db)

/-- PATCH /api/tasks/{id}: ownership check first (404), then validation
(400), then the update. -/
def patchTask (db : Db) (uid id : String) (b : UpdateTaskBody) : Nat × Db :=
  match db.tasks.find? (fun t => t.id == id && t.userId == uid) with
  | none => (404, db)
  | some _ =>
    if !validateUpdateTask b then (400, db)
    else (200, { db with tasks := db.tasks.map (fun t =>
      if t.id == id then applyTaskUpdate b t else t) })

/-- DELETE /api/tasks/{id}: ownership check first (404), then delete with
cascade to the task's completions. -/
def deleteTask (db : Db) (uid id : String) : Nat × Db :=
  match db.tasks.find? (fun t => t.id == id && t.userId == uid) with
  | none => (404, db)
  | some _ =>
    (200, { db with
      tasks := db.tasks.filter (fun t => !(t.id == id)),
      completions := db.completions.filter (fun r => !(r.taskId == id)) })

/-- GET /api/user-notes/{id}. -/
def getNote (db : Db) (uid id : String) : Nat × Db :=
  match db.notes.find? (fun n => n.id == id && n.userId == uid) with
  | none => (404, db)
  | some _ => (200, db)

/-- PUT /api/user-notes/{id}: ownership check first (404), then update title
(trimmed) and content when supplied. -/
def putNote (db : Db) (uid id : String) (title content : Option String) : Nat × Db :=
  match db.notes.find? (fun n => n.id == id && n.userId == uid) with
  | none => (404, db)
  | some _ =>
    (200, { db with notes := db.notes.map (fun n =>
      if n.id == id then
        { n with
          title := match title with
            | some s => String.mk (jsTrim s.data)
            | none => n.title
          content := content.getD n.content }
      else n) })

/-- DELETE /api/user-notes/{id}: ownership check first (404), then delete. -/
def deleteNote (db : Db) (uid id : String) : Nat × Db :=
  match db.notes.find? (fun n => n.id == id && n.userId == uid) with
  | none => (404, db)
  | some _ =>
    (200, { db with notes := db.notes.filter (fun n => !(n.id == id)) })

/-- C9: when the caller owns no task or note with the requested id — whether
it belongs to another user or does not exist at all — every single-resource
handler answers 404 (never 403) and leaves the database unchanged; the two
situations produce identical responses. -/
theorem crossUser_404 (db : Db) (uid rid : String)
    (htask : ∀ t ∈ db.tasks, t.id = rid → t.userId ≠ uid)
    (hnote : ∀ n ∈ db.notes, n.id = rid → n.userId ≠ uid)
    (b : UpdateTaskBody) (title content : Option String) :
    getTask db uid rid = (404, db) ∧ patchTask db uid rid b = (404, db) ∧
    deleteTask db uid rid = (404, db) ∧ getNote db uid rid = (404, db) ∧
    putNote db uid rid title content = (404, db) ∧
    deleteNote db uid rid = (404, db) := by
  have hft : db.tasks.find? (fun t => t.id == rid && t.userId == uid) = none := by
    apply List.find?_eq_none.mpr
    intro t ht
    simp only [Bool.and_eq_true, beq_iff_eq, not_and]
    exact htask t ht
  have hfn : db.notes.find? (fun n => n.id == rid && n.userId == uid) = none := by
    apply List.find?_eq_none.mpr
    intro n hn
    simp only [Bool.and_eq_true, beq_iff_eq, not_and]
    exact hnote n hn
  refine ⟨?_, ?_, ?_, ?_, ?_, ?_⟩
  · unfold getTask; rw [hft]
  · unfold patchTask; rw [hft]
  · unfold deleteTask; rw [hft]
  · unfold getNote; rw [hfn]
  · unfold putNote; rw [hfn]
  · unfold deleteNote; rw [hfn]
/-- C9 witness: a task and a note owned by user u2 are requested by user u1:
every handler answers 404 and the database is unchanged. -/
theorem crossUser_404_witness :
    (∀ t ∈ (⟨[⟨"t1", "u2", "A", none, "#0ea5e9", none, true, 0, 0⟩], [],
        [⟨"n1", "u2", "T", "c"⟩], 0⟩ : Db).tasks, t.id = "t1" → t.userId ≠ "u1") ∧
    (∀ n ∈ (⟨[⟨"t1", "u2", "A", none, "#0ea5e9", none, true, 0, 0⟩], [],
        [⟨"n1", "u2", "T", "c"⟩], 0⟩ : Db).notes, n.id = "t1" → n.userId ≠ "u1") ∧
    getTask ⟨[⟨"t1", "u2", "A", none, "#0ea5e9", none, true, 0, 0⟩], [],
        [⟨"n1", "u2", "T", "c"⟩], 0⟩ "u1" "t1"
      = (404, ⟨[⟨"t1", "u2", "A", none, "#0ea5e9", none, true, 0, 0⟩], [],
        [⟨"n1", "u2", "T", "c"⟩], 0⟩) :=
  ⟨by decide, by decide,
    (crossUser_404 ⟨[⟨"t1", "u2", "A", none, "#0ea5e9", none, true, 0, 0⟩], [],
        [⟨"n1", "u2", "T", "c"⟩], 0⟩ "u1" "t1" (by decide) (by decide)
      ⟨none, none, none, none⟩ none none).1⟩

/-! ### Free-form note blocks (src/components/notes/notes-manager.tsx) -/

/-- The discriminant of a note block. -/
inductive BlockType
  | text
  | todo
  | image
deriving DecidableEq, Repr

/-- A block of a free-form note (the `NoteBlock` interface); `completed` is
the optional flag only todo blocks use. -/
structure NoteBlock where
  id : String
  type : BlockType
  content : String
  completed : Option Bool
deriving DecidableEq, Repr

/-- `deleteBlock` from notes-manager.tsx: remove the blocks with the given
id, nothing else. -/
def deleteBlock (blocks : List NoteBlock) (id : String) : List NoteBlock :=
  blocks.filter (fun b => !(b.id == id))

/-- `addTextBlock`: append an empty text block. -/
def addTextBlock (blocks : List NoteBlock) (newId : String) : List NoteBlock :=
  blocks ++ [⟨newId, BlockType.text, "", none⟩]

/-- `updateBlockContent`: replace the content of the matching block. -/
def updateBlockContent (blocks : List NoteBlock) (id : String) (content : String) :
    List NoteBlock :=
  blocks.map (fun b => if b.id == id then { b with content := content } else b)

/-- `toggleTodoBlock`: negate the (optional) completion flag of the matching
block. -/
def toggleTodoBlock (blocks : List NoteBlock) (id : String) : List NoteBlock :=
  blocks.map (fun b =>
    if b.id == id then { b with completed := some (!(b.completed.getD false)) } else b)

/-- C8 (amended): `deleteBlock` removes exactly the blocks carrying the given
id and preserves the order of the rest; the block list may become empty (the
editor renders an empty-state message for `blocks.length === 0`), and
adjacent text blocks left behind by a deletion are not merged. -/
theorem deleteBlock_spec (blocks : List NoteBlock) (id : String) :
    List.Sublist (deleteBlock blocks id) blocks ∧
    (∀ b, b ∈ deleteBlock blocks id ↔ b ∈ blocks ∧ b.id ≠ id) ∧
    deleteBlock [⟨"t1", BlockType.text, "a", none⟩, ⟨"i1", BlockType.image, "img", none⟩,
        ⟨"t2", BlockType.text, "b", none⟩] "i1"
      = [⟨"t1", BlockType.text, "a", none⟩, ⟨"t2", BlockType.text, "b", none⟩] := by
  refine ⟨List.filter_sublist blocks, ?_, by decide⟩
  intro b
  unfold deleteBlock
  rw [List.mem_filter]
  simp

/-- C8 counterexample: deleting the only block of a note leaves an empty
block list — no empty text block is re-inserted — and deleting a block
between two text blocks leaves them adjacent and unmerged. -/
theorem deleteBlock_violations :
    deleteBlock [⟨"b1", BlockType.text, "hello", none⟩] "b1" = [] ∧
    (deleteBlock [⟨"b1", BlockType.text, "hello", none⟩] "b1").length = 0 ∧
    (deleteBlock [⟨"t1", BlockType.text, "a", none⟩, ⟨"i1", BlockType.image, "img", none⟩,
        ⟨"t2", BlockType.text, "b", none⟩] "i1").map NoteBlock.type
      = [BlockType.text, BlockType.text] := by
  refine ⟨by decide, by decide, by decide⟩

/-- C4 witness: toggling completion=true for an owned task on an empty
completions table answers 200. -/
theorem toggleCompletion_spec_witness :
    (∃ t ∈ (⟨[⟨"t1", "u1", "A", none, "#0ea5e9", none, true, 0, 0⟩], [], [], 0⟩ : Db).tasks,
      t.id = "t1" ∧ t.userId = "u1") ∧
    ((⟨[⟨"t1", "u1", "A", none, "#0ea5e9", none, true, 0, 0⟩], [], [], 0⟩ : Db).completions.filter
      (completionKey "t1" (parseToUTCNoon 0 0))).length ≤ 1 ∧
    (toggleCompletion ⟨[⟨"t1", "u1", "A", none, "#0ea5e9", none, true, 0, 0⟩], [], [], 0⟩
      "u1" "t1" 0 0 true).1 = 200 :=
  ⟨by decide, by decide,
    (toggleCompletion_spec ⟨[⟨"t1", "u1", "A", none, "#0ea5e9", none, true, 0, 0⟩], [], [], 0⟩
      "u1" "t1" 0 0 true (by decide) (by decide)).1⟩

/-- C6 witness: submitting a duplicated id fails, and a failed call leaves
the database unchanged. -/
theorem reorderTasks_failure_iff_witness :
    ((⟨[⟨"t1", "u1", "A", none, "#0ea5e9", none, true, 0, 0⟩], [], [], 0⟩ : Db).tasks.map
      TaskRow.id).Nodup ∧
    ((reorderTasks ⟨[⟨"t1", "u1", "A", none, "#0ea5e9", none, true, 0, 0⟩], [], [], 0⟩
        "u1" ["t1", "t1"]).1 ≠ 200 →
      (reorderTasks ⟨[⟨"t1", "u1", "A", none, "#0ea5e9", none, true, 0, 0⟩], [], [], 0⟩
        "u1" ["t1", "t1"]).2
        = ⟨[⟨"t1", "u1", "A", none, "#0ea5e9", none, true, 0, 0⟩], [], [], 0⟩) :=
  ⟨by decide,
    (reorderTasks_failure_iff ⟨[⟨"t1", "u1", "A", none, "#0ea5e9", none, true, 0, 0⟩], [], [], 0⟩
      "u1" ["t1", "t1"] (by decide)).2⟩

/-- C7 witness: reordering [A, B, C] to [C, A, B] succeeds and the task list
afterwards is sorted by `taskOrder` (concretely [C, A, B] with sort orders
0, 1, 2). -/
theorem reorderTasks_assigns_positions_witness :
    ((⟨[⟨"A", "u1", "A", none, "#0ea5e9", none, true, 0, 0⟩,
        ⟨"B", "u1", "B", none, "#0ea5e9", none, true, 1, 1⟩,
        ⟨"C", "u1", "C", none, "#0ea5e9", none, true, 2, 2⟩], [], [], 0⟩ : Db).tasks.map
      TaskRow.id).Nodup ∧
    (reorderTasks ⟨[⟨"A", "u1", "A", none, "#0ea5e9", none, true, 0, 0⟩,
        ⟨"B", "u1", "B", none, "#0ea5e9", none, true, 1, 1⟩,
        ⟨"C", "u1", "C", none, "#0ea5e9", none, true, 2, 2⟩], [], [], 0⟩
      "u1" ["C", "A", "B"]).1 = 200 ∧
    (listTasks (reorderTasks ⟨[⟨"A", "u1", "A", none, "#0ea5e9", none, true, 0, 0⟩,
        ⟨"B", "u1", "B", none, "#0ea5e9", none, true, 1, 1⟩,
        ⟨"C", "u1", "C", none, "#0ea5e9", none, true, 2, 2⟩], [], [], 0⟩
      "u1" ["C", "A", "B"]).2 "u1").map TaskRow.id = ["C", "A", "B"] ∧
    List.Sorted taskOrder (listTasks (reorderTasks
      ⟨[⟨"A", "u1", "A", none, "#0ea5e9", none, true, 0, 0⟩,
        ⟨"B", "u1", "B", none, "#0ea5e9", none, true, 1, 1⟩,
        ⟨"C", "u1", "C", none, "#0ea5e9", none, true, 2, 2⟩], [], [], 0⟩
      "u1" ["C", "A", "B"]).2 "u1") :=
  ⟨by decide, by decide, by decide,
    (reorderTasks_assigns_positions ⟨[⟨"A", "u1", "A", none, "#0ea5e9", none, true, 0, 0⟩,
        ⟨"B", "u1", "B", none, "#0ea5e9", none, true, 1, 1⟩,
        ⟨"C", "u1", "C", none, "#0ea5e9", none, true, 2, 2⟩], [], [], 0⟩
      "u1" ["C", "A", "B"] (by decide) (by decide)).2.1⟩

end HabitTrack
